import Mathlib

/-!
Formal model of the 2048 game engine implemented in `game.py`
(class `Game2048`).  Boards are lists of rows of natural numbers;
randomness in tile spawning is abstracted by explicit parameters
(an index into the list of empty cells and a boolean for value 4 vs 2).
-/

structure Game2048 where
  size : Nat
  board : List (List Nat)
  score : Nat
  win_value : Nat
  game_won : Bool

/-- Cell access board[r][c]; out-of-range reads default to 0 (all real
accesses in the code are in range for well-formed boards). -/
def Game2048.cell (b : List (List Nat)) (r c : Nat) : Nat :=
  (b.getD r []).getD c 0

/-- Length of the shortest row, mirroring how python's zip truncates. -/
def Game2048.minLen : List (List Nat) → Nat
  | [] => 0
  | r :: rs => rs.foldl (fun m row => min m row.length) r.length

/-- Matrix transposition, from the source method that zips the rows. -/
def Game2048.transposeB (b : List (List Nat)) : List (List Nat) :=
  (List.range (Game2048.minLen b)).map (fun i => b.map (fun row => row.getD i 0))

/-- Reversal of every row of the board. -/
def Game2048.reverseRows (b : List (List Nat)) : List (List Nat) :=
  b.map List.reverse

/-- The merging scan of the source: walk the compressed row left to right,
fuse each equal adjacent pair into its double, skip past the consumed pair.
Returns the merged row, the score added, and whether a merge hit `win`. -/
def Game2048.mergeRow (win : Nat) : List Nat → List Nat × Nat × Bool
  | a :: b :: rest =>
    if a = b then
      let r := Game2048.mergeRow win rest
      (a * 2 :: r.1, a * 2 + r.2.1, (decide (a * 2 = win)) || r.2.2)
    else
      let r := Game2048.mergeRow win (b :: rest)
      (a :: r.1, r.2.1, r.2.2)
  | [a] => ([a], 0, false)
  | [] => ([], 0, false)

/-- One row of the move-left primitive: compress (drop zeros), merge,
right-pad with zeros back to length `size`. -/
def Game2048.moveLeftRow (win size : Nat) (row : List Nat) : List Nat × Nat × Bool :=
  let m := Game2048.mergeRow win (row.filter (fun i => i != 0))
  (m.1 ++ List.replicate (size - m.1.length) 0, m.2.1, m.2.2)

/-- The move-left primitive on a whole board, accumulating the score
delta and the win-hit flag over the rows. -/
def Game2048.moveLeftBoard (win size : Nat) : List (List Nat) → List (List Nat) × Nat × Bool
  | [] => ([], 0, false)
  | row :: rest =>
    let r := Game2048.moveLeftRow win size row
    let rb := Game2048.moveLeftBoard win size rest
    (r.1 :: rb.1, r.2.1 + rb.2.1, r.2.2 || rb.2.2)

/-- Direction dispatch of `move`: reduce each direction to move-left via
transposition and row reversal, exactly as the source's if-chain does.
Any other character leaves the board alone (the invalid-direction case). -/
def Game2048.transformBoard (win size : Nat) (d : Char) (b : List (List Nat)) :
    List (List Nat) × Nat × Bool :=
  if d = 'w' then
    let t := Game2048.moveLeftBoard win size (Game2048.transposeB b)
    (Game2048.transposeB t.1, t.2.1, t.2.2)
  else if d = 's' then
    let t := Game2048.moveLeftBoard win size
      (Game2048.reverseRows (Game2048.transposeB b))
    (Game2048.transposeB (Game2048.reverseRows t.1), t.2.1, t.2.2)
  else if d = 'a' then
    Game2048.moveLeftBoard win size b
  else if d = 'd' then
    let t := Game2048.moveLeftBoard win size (Game2048.reverseRows b)
    (Game2048.reverseRows t.1, t.2.1, t.2.2)
  else (b, 0, false)

/-- Row-major list of coordinates of empty cells, as `add_new_tile` builds it. -/
def Game2048.emptyCells (size : Nat) (b : List (List Nat)) : List (Nat × Nat) :=
  (List.range size).flatMap (fun r =>
    ((List.range size).filter (fun c => Game2048.cell b r c == 0)).map (fun c => (r, c)))

/-- Write value `v` into cell (r, c) of the board. -/
def Game2048.setCell (b : List (List Nat)) (r c v : Nat) : List (List Nat) :=
  b.set r ((b.getD r []).set c v)

/-- Spawn a tile: no-op when the board is full, otherwise set the chosen
empty cell to 4 (probability branch `f`) or 2.  The random draw of
`random.choice` is abstracted by the index `p` into the empty-cell list. -/
def Game2048.add_new_tile (g : Game2048) (p : Nat) (f : Bool) : Game2048 :=
  let empty := Game2048.emptyCells g.size g.board
  if empty = [] then g
  else
    let rc := empty.getD (p % empty.length) (0, 0)
    { g with board := Game2048.setCell g.board rc.1 rc.2 (if f then 4 else 2) }

/-- The `move` method: reject invalid directions, apply the directional
transform (which also updates score and win flag), report false on an
unchanged board, otherwise spawn one tile and report true. -/
def Game2048.move (g : Game2048) (d : Char) (p : Nat) (f : Bool) : Game2048 × Bool :=
  if d = 'w' ∨ d = 's' ∨ d = 'a' ∨ d = 'd' then
    let t := Game2048.transformBoard g.win_value g.size d g.board
    let g1 : Game2048 :=
      { g with
        board := t.1
        score := g.score + t.2.1
        game_won := g.game_won || t.2.2 }
    if t.1 = g.board then (g1, false)
    else (Game2048.add_new_tile g1 p f, true)
  else (g, false)

/-- Construction: zero board of the given size, score 0, win value 2048,
win flag false, then two spawned tiles. -/
def Game2048.init (size p1 : Nat) (f1 : Bool) (p2 : Nat) (f2 : Bool) : Game2048 :=
  Game2048.add_new_tile (Game2048.add_new_tile
    { size := size, board := List.replicate size (List.replicate size 0),
      score := 0, win_value := 2048, game_won := false } p1 f1) p2 f2

/-- Game-over test: false if some cell is 0, false if some cell equals its
right or lower neighbour, true otherwise. -/
def Game2048.is_game_over (size : Nat) (b : List (List Nat)) : Bool :=
  if (List.range size).any (fun r => (List.range size).any (fun c =>
      Game2048.cell b r c == 0)) then false
  else if (List.range size).any (fun r => (List.range size).any (fun c =>
      (decide (c + 1 < size) && (Game2048.cell b r c == Game2048.cell b r (c + 1))) ||
      (decide (r + 1 < size) && (Game2048.cell b r c == Game2048.cell b (r + 1) c)))) then
    false
  else true

/-- Well-formedness: an n by n board. -/
def Game2048.BoardWF (n : Nat) (b : List (List Nat)) : Prop :=
  b.length = n ∧ ∀ row ∈ b, row.length = n

/-- Specification predicate: no empty cell in the size-by-size window. -/
def Game2048.noZeroCells (size : Nat) (b : List (List Nat)) : Prop :=
  ∀ r < size, ∀ c < size, Game2048.cell b r c ≠ 0

/-- Specification predicate: no equal horizontally or vertically adjacent
cells, neighbours checked only where they exist. -/
def Game2048.noAdjacentPairs (size : Nat) (b : List (List Nat)) : Prop :=
  (∀ r < size, ∀ c < size, c + 1 < size →
    Game2048.cell b r c ≠ Game2048.cell b r (c + 1)) ∧
  (∀ r < size, r + 1 < size → ∀ c < size,
    Game2048.cell b r c ≠ Game2048.cell b (r + 1) c)

/-- A legal tile value: empty or a power of two at least 2. -/
def Game2048.TileOK (v : Nat) : Prop := v = 0 ∨ ∃ k, 1 ≤ k ∧ v = 2 ^ k

/-- All cells of the board are legal tile values. -/
def Game2048.BoardOK (b : List (List Nat)) : Prop :=
  ∀ row ∈ b, ∀ v ∈ row, Game2048.TileOK v

/-- Number of non-zero cells of the board. -/
def Game2048.countNonzero (b : List (List Nat)) : Nat :=
  (b.map (fun row => (row.filter (fun i => i != 0)).length)).sum

theorem getD_lt {α : Type} {l : List α} {n : Nat} (h : n < l.length) (d : α) :
    l.getD n d = l[n] := by
  simp [List.getD_eq_getElem?_getD, List.getElem?_eq_getElem h]

theorem mergeRow_length_le (win : Nat) :
    ∀ xs : List Nat, (Game2048.mergeRow win xs).1.length ≤ xs.length
  | [] => by simp [Game2048.mergeRow]
  | [a] => by simp [Game2048.mergeRow]
  | a :: b :: rest => by
    by_cases h : a = b
    · have ih := mergeRow_length_le win rest
      simp only [Game2048.mergeRow, if_pos h, List.length_cons]
      omega
    · have ih := mergeRow_length_le win (b :: rest)
      simp only [Game2048.mergeRow, if_neg h, List.length_cons] at ih ⊢
      omega

theorem mergeRow_length_eq (win : Nat) :
    ∀ xs : List Nat, (Game2048.mergeRow win xs).1.length = xs.length →
      Game2048.mergeRow win xs = (xs, 0, false)
  | [] => by simp [Game2048.mergeRow]
  | [a] => by simp [Game2048.mergeRow]
  | a :: b :: rest => by
    by_cases h : a = b
    · intro hlen
      have hle := mergeRow_length_le win rest
      simp only [Game2048.mergeRow, if_pos h, List.length_cons] at hlen
      omega
    · intro hlen
      simp only [Game2048.mergeRow, if_neg h, List.length_cons] at hlen ⊢
      have ih := mergeRow_length_eq win (b :: rest) (by simpa using hlen)
      simp [ih]

theorem mergeRow_mem (win : Nat) :
    ∀ xs : List Nat, ∀ x ∈ (Game2048.mergeRow win xs).1,
      x ∈ xs ∨ ∃ a ∈ xs, x = a * 2
  | [] => by simp [Game2048.mergeRow]
  | [a] => by simp [Game2048.mergeRow]
  | a :: b :: rest => by
    intro x hx
    by_cases h : a = b
    · simp only [Game2048.mergeRow, if_pos h, List.mem_cons] at hx
      rcases hx with hx | hx
      · exact Or.inr ⟨a, by simp, hx⟩
      · rcases mergeRow_mem win rest x hx with h1 | ⟨a0, ha0, he⟩
        · exact Or.inl (by simp [h1])
        · exact Or.inr ⟨a0, by simp [ha0], he⟩
    · simp only [Game2048.mergeRow, if_neg h, List.mem_cons] at hx
      rcases hx with hx | hx
      · exact Or.inl (by simp [hx])
      · rcases mergeRow_mem win (b :: rest) x hx with h1 | ⟨a0, ha0, he⟩
        · exact Or.inl (by simp [List.mem_cons] at h1 ⊢; tauto)
        · refine Or.inr ⟨a0, ?_, he⟩
          simp [List.mem_cons] at ha0 ⊢
          tauto

theorem mergeRow_sum (win : Nat) :
    ∀ xs : List Nat, (Game2048.mergeRow win xs).1.sum = xs.sum
  | [] => by simp [Game2048.mergeRow]
  | [a] => by simp [Game2048.mergeRow]
  | a :: b :: rest => by
    by_cases h : a = b
    · have ih := mergeRow_sum win rest
      simp only [Game2048.mergeRow, if_pos h, List.sum_cons, ih]
      omega
    · have ih := mergeRow_sum win (b :: rest)
      simp only [Game2048.mergeRow, if_neg h, List.sum_cons] at ih ⊢
      omega

theorem mergeRow_chain (win : Nat) :
    ∀ xs : List Nat, List.Chain' (fun a b => a ≠ b) xs →
      Game2048.mergeRow win xs = (xs, 0, false)
  | [] => by simp [Game2048.mergeRow]
  | [a] => by simp [Game2048.mergeRow]
  | a :: b :: rest => by
    intro hch
    rw [List.chain'_cons] at hch
    have ih := mergeRow_chain win (b :: rest) hch.2
    simp [Game2048.mergeRow, hch.1, ih]

theorem mergeRow_score_zero (win : Nat) :
    ∀ xs : List Nat, (∀ x ∈ xs, x ≠ 0) → (Game2048.mergeRow win xs).2.1 = 0 →
      (Game2048.mergeRow win xs).1 = xs ∧ List.Chain' (fun a b => a ≠ b) xs
  | [] => by simp [Game2048.mergeRow]
  | [a] => by simp [Game2048.mergeRow]
  | a :: b :: rest => by
    intro hnz hs
    by_cases h : a = b
    · exfalso
      have ha : a ≠ 0 := hnz a (by simp)
      simp only [Game2048.mergeRow, if_pos h] at hs
      omega
    · simp only [Game2048.mergeRow, if_neg h] at hs ⊢
      have ih := mergeRow_score_zero win (b :: rest)
        (fun x hx => hnz x (by simp [List.mem_cons] at hx ⊢; tauto)) hs
      refine ⟨by simp [ih.1], ?_⟩
      rw [List.chain'_cons]
      exact ⟨h, ih.2⟩

theorem mergeRow_won (win : Nat) :
    ∀ xs : List Nat, (Game2048.mergeRow win xs).2.2 = true →
      ∃ a ∈ xs, a * 2 = win
  | [] => by simp [Game2048.mergeRow]
  | [a] => by simp [Game2048.mergeRow]
  | a :: b :: rest => by
    intro hw
    by_cases h : a = b
    · simp only [Game2048.mergeRow, if_pos h, Bool.or_eq_true, decide_eq_true_eq] at hw
      rcases hw with hw | hw
      · exact ⟨a, by simp, hw⟩
      · rcases mergeRow_won win rest hw with ⟨a0, ha0, he⟩
        exact ⟨a0, by simp [ha0], he⟩
    · simp only [Game2048.mergeRow, if_neg h] at hw
      rcases mergeRow_won win (b :: rest) hw with ⟨a0, ha0, he⟩
      refine ⟨a0, ?_, he⟩
      simp [List.mem_cons] at ha0 ⊢
      tauto

theorem mergeRow_nonzero (win : Nat) (xs : List Nat) (hnz : ∀ x ∈ xs, x ≠ 0) :
    ∀ x ∈ (Game2048.mergeRow win xs).1, x ≠ 0 := by
  intro x hx
  rcases mergeRow_mem win xs x hx with h | ⟨a, ha, he⟩
  · exact hnz x h
  · have := hnz a ha
    omega

theorem filter_replicate_zero (n : Nat) :
    (List.replicate n (0 : Nat)).filter (fun i => i != 0) = [] := by
  induction n with
  | zero => simp
  | succ k ih => simp [List.replicate_succ, ih]

theorem filter_nz_mem_ne {row : List Nat} {x : Nat}
    (hx : x ∈ row.filter (fun i => i != 0)) : x ≠ 0 := by
  have := (List.mem_filter.mp hx).2
  simpa using this

theorem filter_nz_sum : ∀ row : List Nat, (row.filter (fun i => i != 0)).sum = row.sum := by
  intro row
  induction row with
  | nil => simp
  | cons a l ih =>
    by_cases h : a = 0 <;> simp [List.filter_cons, h, ih]

theorem moveLeftRow_filter (win size : Nat) (row : List Nat) :
    ((Game2048.moveLeftRow win size row).1).filter (fun i => i != 0) =
      (Game2048.mergeRow win (row.filter (fun i => i != 0))).1 := by
  simp only [Game2048.moveLeftRow, List.filter_append, filter_replicate_zero,
    List.append_nil]
  exact List.filter_eq_self.mpr (fun a ha => by
    simpa using mergeRow_nonzero win _ (fun x hx => filter_nz_mem_ne hx) a ha)

theorem moveLeftRow_fixed (win size : Nat) (row : List Nat)
    (h : (Game2048.moveLeftRow win size row).1 = row) :
    Game2048.moveLeftRow win size row = (row, 0, false) := by
  have hf : (Game2048.mergeRow win (row.filter (fun i => i != 0))).1 =
      row.filter (fun i => i != 0) := by
    rw [← moveLeftRow_filter win size row, h]
  have hm := mergeRow_length_eq win (row.filter (fun i => i != 0)) (by rw [hf])
  simp only [Game2048.moveLeftRow, hm] at h ⊢
  exact Prod.ext h rfl

theorem moveLeftRow_length (win size : Nat) (row : List Nat)
    (h : row.length ≤ size) : (Game2048.moveLeftRow win size row).1.length = size := by
  have h1 : (Game2048.mergeRow win (row.filter (fun i => i != 0))).1.length ≤ size := by
    calc (Game2048.mergeRow win (row.filter (fun i => i != 0))).1.length
        ≤ (row.filter (fun i => i != 0)).length := mergeRow_length_le win _
      _ ≤ row.length := List.length_filter_le _ _
      _ ≤ size := h
  simp only [Game2048.moveLeftRow, List.length_append, List.length_replicate]
  omega

theorem moveLeftRow_zero_mem (win size : Nat) (row : List Nat)
    (hlen : row.length ≤ size)
    (hne : (Game2048.moveLeftRow win size row).1 ≠ row) :
    0 ∈ (Game2048.moveLeftRow win size row).1 := by
  by_cases hlt : (Game2048.mergeRow win (row.filter (fun i => i != 0))).1.length < size
  · simp only [Game2048.moveLeftRow, List.mem_append]
    refine Or.inr ?_
    rw [List.mem_replicate]
    omega
  · exfalso
    have h1 : (Game2048.mergeRow win (row.filter (fun i => i != 0))).1.length ≤
        (row.filter (fun i => i != 0)).length := mergeRow_length_le win _
    have h2 : (row.filter (fun i => i != 0)).length ≤ row.length :=
      List.length_filter_le _ _
    have hceq : row.filter (fun i => i != 0) = row :=
      (List.filter_sublist row).eq_of_length (by omega)
    have hmeq := mergeRow_length_eq win (row.filter (fun i => i != 0)) (by omega)
    apply hne
    simp only [Game2048.moveLeftRow, hmeq]
    have : size - (row.filter (fun i => i != 0)).length = 0 := by omega
    simp [this, hceq]
    omega

theorem moveLeftRow_score_zero (win size : Nat) (row : List Nat)
    (h : (Game2048.moveLeftRow win size row).2.1 = 0) :
    Game2048.moveLeftRow win size ((Game2048.moveLeftRow win size row).1) =
      ((Game2048.moveLeftRow win size row).1, 0, false) := by
  have hz := mergeRow_score_zero win (row.filter (fun i => i != 0))
    (fun x hx => filter_nz_mem_ne hx) (by simpa [Game2048.moveLeftRow] using h)
  have hfix : Game2048.mergeRow win (row.filter (fun i => i != 0)) =
      (row.filter (fun i => i != 0), 0, false) :=
    mergeRow_length_eq win _ (by rw [hz.1])
  have hc : (row.filter (fun i => i != 0)).filter (fun i => i != 0) =
      row.filter (fun i => i != 0) :=
    List.filter_eq_self.mpr (fun a ha => (List.mem_filter.mp ha).2)
  have hout : (Game2048.moveLeftRow win size row).1 =
      row.filter (fun i => i != 0) ++
        List.replicate (size - (row.filter (fun i => i != 0)).length) 0 := by
    simp [Game2048.moveLeftRow, hfix]
  rw [hout]
  simp [Game2048.moveLeftRow, filter_replicate_zero, hc, hfix]

theorem moveLeftRow_won (win size : Nat) (row : List Nat)
    (h : (Game2048.moveLeftRow win size row).2.2 = true) :
    ∃ a ∈ row, a * 2 = win := by
  have hw : (Game2048.mergeRow win (row.filter (fun i => i != 0))).2.2 = true := by
    simpa [Game2048.moveLeftRow] using h
  rcases mergeRow_won win _ hw with ⟨a, ha, he⟩
  exact ⟨a, (List.mem_filter.mp ha).1, he⟩

theorem moveLeftBoard_fst (win size : Nat) :
    ∀ b : List (List Nat), (Game2048.moveLeftBoard win size b).1 =
      b.map (fun row => (Game2048.moveLeftRow win size row).1)
  | [] => by simp [Game2048.moveLeftBoard]
  | row :: rest => by
    simp [Game2048.moveLeftBoard, moveLeftBoard_fst win size rest]

theorem moveLeftBoard_fixed (win size : Nat) :
    ∀ b : List (List Nat), (Game2048.moveLeftBoard win size b).1 = b →
      Game2048.moveLeftBoard win size b = (b, 0, false)
  | [] => by simp [Game2048.moveLeftBoard]
  | row :: rest => by
    intro h
    simp only [Game2048.moveLeftBoard, List.cons.injEq] at h
    have h1 := moveLeftRow_fixed win size row h.1
    have h2 := moveLeftBoard_fixed win size rest h.2
    simp [Game2048.moveLeftBoard, h1, h2]

theorem moveLeftBoard_len (win size : Nat) (b : List (List Nat)) :
    (Game2048.moveLeftBoard win size b).1.length = b.length := by
  simp [moveLeftBoard_fst]

theorem moveLeftBoard_rows (win size : Nat) (b : List (List Nat))
    (h : ∀ row ∈ b, row.length ≤ size) :
    ∀ row ∈ (Game2048.moveLeftBoard win size b).1, row.length = size := by
  intro row hrow
  rw [moveLeftBoard_fst] at hrow
  rcases List.mem_map.mp hrow with ⟨r, hr, he⟩
  rw [← he]
  exact moveLeftRow_length win size r (h r hr)

theorem moveLeftBoard_score_zero (win size : Nat) :
    ∀ b : List (List Nat), (Game2048.moveLeftBoard win size b).2.1 = 0 →
      Game2048.moveLeftBoard win size ((Game2048.moveLeftBoard win size b).1) =
        ((Game2048.moveLeftBoard win size b).1, 0, false)
  | [] => by simp [Game2048.moveLeftBoard]
  | row :: rest => by
    intro h
    simp only [Game2048.moveLeftBoard] at h
    have hrow : (Game2048.moveLeftRow win size row).2.1 = 0 := by omega
    have hrest : (Game2048.moveLeftBoard win size rest).2.1 = 0 := by omega
    have h1 := moveLeftRow_score_zero win size row hrow
    have h2 := moveLeftBoard_score_zero win size rest hrest
    simp [Game2048.moveLeftBoard, h1, h2]

theorem moveLeftBoard_changed_zero (win size : Nat) :
    ∀ b : List (List Nat), (∀ row ∈ b, row.length ≤ size) →
      (Game2048.moveLeftBoard win size b).1 ≠ b →
      ∃ row ∈ (Game2048.moveLeftBoard win size b).1, 0 ∈ row
  | [] => by simp [Game2048.moveLeftBoard]
  | row :: rest => by
    intro hlen hne
    by_cases h1 : (Game2048.moveLeftRow win size row).1 = row
    · have h2 : (Game2048.moveLeftBoard win size rest).1 ≠ rest := by
        intro h2
        exact hne (by simp [Game2048.moveLeftBoard, h1, h2])
      rcases moveLeftBoard_changed_zero win size rest
        (fun r hr => hlen r (by simp [hr])) h2 with ⟨r, hr, hz⟩
      exact ⟨r, by simp [Game2048.moveLeftBoard, hr], hz⟩
    · refine ⟨(Game2048.moveLeftRow win size row).1, by simp [Game2048.moveLeftBoard], ?_⟩
      exact moveLeftRow_zero_mem win size row (hlen row (by simp)) h1

theorem moveLeftBoard_won (win size : Nat) :
    ∀ b : List (List Nat), (Game2048.moveLeftBoard win size b).2.2 = true →
      ∃ row ∈ b, ∃ a ∈ row, a * 2 = win
  | [] => by simp [Game2048.moveLeftBoard]
  | row :: rest => by
    intro h
    simp only [Game2048.moveLeftBoard, Bool.or_eq_true] at h
    rcases h with h | h
    · rcases moveLeftRow_won win size row h with ⟨a, ha, he⟩
      exact ⟨row, by simp, a, ha, he⟩
    · rcases moveLeftBoard_won win size rest h with ⟨r, hr, a, ha, he⟩
      exact ⟨r, by simp [hr], a, ha, he⟩

theorem tileOK_double {a : Nat} (h : Game2048.TileOK a) (hnz : a ≠ 0) :
    Game2048.TileOK (a * 2) := by
  rcases h with h | ⟨k, hk, he⟩
  · exact absurd h hnz
  · exact Or.inr ⟨k + 1, by omega, by rw [he]; ring⟩

theorem moveLeftRow_tileOK (win size : Nat) (row : List Nat)
    (h : ∀ x ∈ row, Game2048.TileOK x) :
    ∀ x ∈ (Game2048.moveLeftRow win size row).1, Game2048.TileOK x := by
  intro x hx
  simp only [Game2048.moveLeftRow, List.mem_append] at hx
  rcases hx with hx | hx
  · rcases mergeRow_mem win _ x hx with hm | ⟨a, ha, he⟩
    · exact h x (List.mem_filter.mp hm).1
    · have ha2 := h a (List.mem_filter.mp ha).1
      have hnz : a ≠ 0 := filter_nz_mem_ne ha
      rw [he]
      exact tileOK_double ha2 hnz
  · rw [List.mem_replicate] at hx
    exact Or.inl hx.2

theorem moveLeftBoard_tileOK (win size : Nat) (b : List (List Nat))
    (h : Game2048.BoardOK b) : Game2048.BoardOK (Game2048.moveLeftBoard win size b).1 := by
  intro row hrow
  rw [moveLeftBoard_fst] at hrow
  rcases List.mem_map.mp hrow with ⟨r, hr, he⟩
  rw [← he]
  exact moveLeftRow_tileOK win size r (h r hr)

theorem getD_ge {α : Type} {l : List α} {n : Nat} (h : l.length ≤ n) (d : α) :
    l.getD n d = d := by
  simp [List.getD_eq_getElem?_getD, List.getElem?_eq_none h]

theorem getD_mem_or {α : Type} (l : List α) (n : Nat) (d : α) :
    l.getD n d = d ∨ l.getD n d ∈ l := by
  by_cases h : n < l.length
  · exact Or.inr (by rw [getD_lt h]; exact List.getElem_mem h)
  · exact Or.inl (getD_ge (by omega) d)

theorem reverseRows_reverseRows (b : List (List Nat)) :
    Game2048.reverseRows (Game2048.reverseRows b) = b := by
  simp [Game2048.reverseRows, List.map_map, Function.comp_def]

theorem reverseRows_wf {n : Nat} {b : List (List Nat)} (h : Game2048.BoardWF n b) :
    Game2048.BoardWF n (Game2048.reverseRows b) := by
  refine ⟨by simp [Game2048.reverseRows, h.1], ?_⟩
  intro row hrow
  rcases List.mem_map.mp hrow with ⟨r, hr, he⟩
  rw [← he]
  simpa using h.2 r hr

theorem foldl_min_const {n : Nat} :
    ∀ rs : List (List Nat), (∀ row ∈ rs, row.length = n) →
      rs.foldl (fun m row => min m row.length) n = n
  | [] => by simp
  | r :: rs => by
    intro h
    have hr : r.length = n := h r (by simp)
    have := foldl_min_const rs (fun row hrow => h row (by simp [hrow]))
    simp [List.foldl_cons, hr, this]

theorem minLen_wf {n : Nat} {b : List (List Nat)} (h : Game2048.BoardWF n b)
    (hn : 0 < n) : Game2048.minLen b = n := by
  match b, h with
  | [], h => exact absurd h.1 (by simp; omega)
  | r :: rs, h =>
    have hr : r.length = n := h.2 r (by simp)
    simp only [Game2048.minLen, hr]
    exact foldl_min_const rs (fun row hrow => h.2 row (by simp [hrow]))

theorem transposeB_wf {n : Nat} {b : List (List Nat)} (h : Game2048.BoardWF n b) :
    Game2048.BoardWF n (Game2048.transposeB b) := by
  rcases Nat.eq_zero_or_pos n with hn | hn
  · subst hn
    have : b = [] := List.length_eq_zero.mp h.1
    subst this
    exact ⟨by simp [Game2048.transposeB, Game2048.minLen], by
      intro row hrow
      simp [Game2048.transposeB, Game2048.minLen] at hrow⟩
  · have hm := minLen_wf h hn
    refine ⟨by simp [Game2048.transposeB, hm], ?_⟩
    intro row hrow
    rcases List.mem_map.mp hrow with ⟨i, _, he⟩
    rw [← he]
    simp [h.1]

theorem cell_transposeB {n : Nat} {b : List (List Nat)} (h : Game2048.BoardWF n b)
    {r c : Nat} (hr : r < n) (hc : c < n) :
    Game2048.cell (Game2048.transposeB b) r c = Game2048.cell b c r := by
  have hn : 0 < n := by omega
  have hm := minLen_wf h hn
  have hrX : r < ((List.range (Game2048.minLen b)).map
      (fun i => b.map (fun row => row.getD i 0))).length := by simp [hm]; omega
  have e1 : ((List.range (Game2048.minLen b)).map
      (fun i => b.map (fun row => row.getD i 0))).getD r [] =
      b.map (fun row => row.getD r 0) := by
    rw [getD_lt hrX, List.getElem_map]
    simp
  have hcb : c < b.length := by rw [h.1]; exact hc
  have e2 : (b.map (fun row => row.getD r 0)).getD c 0 =
      (b.getD c []).getD r 0 := by
    rw [getD_lt (by simpa using hcb), List.getElem_map, getD_lt hcb]
  unfold Game2048.cell Game2048.transposeB
  rw [e1, e2]

theorem cell_ext {n : Nat} {b1 b2 : List (List Nat)} (h1 : Game2048.BoardWF n b1)
    (h2 : Game2048.BoardWF n b2)
    (h : ∀ r < n, ∀ c < n, Game2048.cell b1 r c = Game2048.cell b2 r c) : b1 = b2 := by
  apply List.ext_getElem (by rw [h1.1, h2.1])
  intro i hi1 hi2
  have hin : i < n := by rw [← h1.1]; exact hi1
  apply List.ext_getElem
  · rw [h1.2 _ (List.getElem_mem hi1), h2.2 _ (List.getElem_mem hi2)]
  · intro j hj1 hj2
    have hjn : j < n := by rw [← h1.2 _ (List.getElem_mem hi1)]; exact hj1
    have e1 : Game2048.cell b1 i j = b1[i][j] := by
      unfold Game2048.cell
      rw [getD_lt hi1, getD_lt hj1]
    have e2 : Game2048.cell b2 i j = b2[i][j] := by
      unfold Game2048.cell
      rw [getD_lt hi2, getD_lt hj2]
    rw [← e1, ← e2]
    exact h i hin j hjn

theorem transposeB_transposeB {n : Nat} {b : List (List Nat)}
    (h : Game2048.BoardWF n b) :
    Game2048.transposeB (Game2048.transposeB b) = b := by
  apply cell_ext (transposeB_wf (transposeB_wf h)) h
  intro r hr c hc
  rw [cell_transposeB (transposeB_wf h) hr hc, cell_transposeB h hc hr]

theorem reverseRows_zero {b : List (List Nat)} (h : ∃ row ∈ b, 0 ∈ row) :
    ∃ row ∈ Game2048.reverseRows b, 0 ∈ row := by
  rcases h with ⟨row, hrow, hz⟩
  exact ⟨row.reverse, List.mem_map.mpr ⟨row, hrow, rfl⟩, by simpa using hz⟩

theorem transposeB_zero {n : Nat} {b : List (List Nat)} (h : Game2048.BoardWF n b)
    (hz : ∃ row ∈ b, 0 ∈ row) : ∃ row ∈ Game2048.transposeB b, 0 ∈ row := by
  rcases hz with ⟨row, hrow, hzr⟩
  rcases List.getElem_of_mem hzr with ⟨j, hj, hje⟩
  have hjn : j < n := by rw [← h.2 row hrow]; exact hj
  have hn : 0 < n := by omega
  have hm := minLen_wf h hn
  refine ⟨b.map (fun r => r.getD j 0), ?_, ?_⟩
  · unfold Game2048.transposeB
    exact List.mem_map.mpr ⟨j, by simp [hm]; omega, rfl⟩
  · refine List.mem_map.mpr ⟨row, hrow, ?_⟩
    rw [getD_lt hj, hje]

theorem reverseRows_boardOK {b : List (List Nat)} (h : Game2048.BoardOK b) :
    Game2048.BoardOK (Game2048.reverseRows b) := by
  intro row hrow
  rcases List.mem_map.mp hrow with ⟨r, hr, he⟩
  intro v hv
  rw [← he] at hv
  exact h r hr v (by simpa using hv)

theorem transposeB_boardOK {b : List (List Nat)} (h : Game2048.BoardOK b) :
    Game2048.BoardOK (Game2048.transposeB b) := by
  intro row hrow v hv
  rcases List.mem_map.mp hrow with ⟨i, _, he⟩
  rw [← he] at hv
  rcases List.mem_map.mp hv with ⟨r, hr, hev⟩
  rcases getD_mem_or r i 0 with hd | hd
  · rw [← hev, hd]
    exact Or.inl rfl
  · exact h r hr v (by rw [← hev]; exact hd)

theorem transform_w (win n : Nat) (b : List (List Nat)) :
    Game2048.transformBoard win n 'w' b =
      (Game2048.transposeB (Game2048.moveLeftBoard win n (Game2048.transposeB b)).1,
       (Game2048.moveLeftBoard win n (Game2048.transposeB b)).2.1,
       (Game2048.moveLeftBoard win n (Game2048.transposeB b)).2.2) := rfl

theorem transform_s (win n : Nat) (b : List (List Nat)) :
    Game2048.transformBoard win n 's' b =
      (Game2048.transposeB (Game2048.reverseRows
         (Game2048.moveLeftBoard win n
           (Game2048.reverseRows (Game2048.transposeB b))).1),
       (Game2048.moveLeftBoard win n
         (Game2048.reverseRows (Game2048.transposeB b))).2.1,
       (Game2048.moveLeftBoard win n
         (Game2048.reverseRows (Game2048.transposeB b))).2.2) := rfl

theorem transform_a (win n : Nat) (b : List (List Nat)) :
    Game2048.transformBoard win n 'a' b = Game2048.moveLeftBoard win n b := rfl

theorem transform_d (win n : Nat) (b : List (List Nat)) :
    Game2048.transformBoard win n 'd' b =
      (Game2048.reverseRows
         (Game2048.moveLeftBoard win n (Game2048.reverseRows b)).1,
       (Game2048.moveLeftBoard win n (Game2048.reverseRows b)).2.1,
       (Game2048.moveLeftBoard win n (Game2048.reverseRows b)).2.2) := rfl

theorem moveLeftBoard_wf {win n : Nat} {b : List (List Nat)}
    (h : Game2048.BoardWF n b) :
    Game2048.BoardWF n (Game2048.moveLeftBoard win n b).1 :=
  ⟨by rw [moveLeftBoard_len, h.1],
   moveLeftBoard_rows win n b (fun row hr => Nat.le_of_eq (h.2 row hr))⟩

theorem transform_fixed (win n : Nat) (d : Char) (b : List (List Nat))
    (hd : d = 'w' ∨ d = 's' ∨ d = 'a' ∨ d = 'd') (hwf : Game2048.BoardWF n b)
    (h : (Game2048.transformBoard win n d b).1 = b) :
    Game2048.transformBoard win n d b = (b, 0, false) := by
  rcases hd with rfl | rfl | rfl | rfl
  · rw [transform_w] at h ⊢
    simp only at h
    have hX : Game2048.BoardWF n
        (Game2048.moveLeftBoard win n (Game2048.transposeB b)).1 :=
      moveLeftBoard_wf (transposeB_wf hwf)
    have hXb : (Game2048.moveLeftBoard win n (Game2048.transposeB b)).1 =
        Game2048.transposeB b := by
      rw [← transposeB_transposeB hX, h]
    have hfix := moveLeftBoard_fixed win n (Game2048.transposeB b) hXb
    rw [hfix]
    simp [transposeB_transposeB hwf]
  · rw [transform_s] at h ⊢
    simp only at h
    have hX : Game2048.BoardWF n
        (Game2048.moveLeftBoard win n
          (Game2048.reverseRows (Game2048.transposeB b))).1 :=
      moveLeftBoard_wf (reverseRows_wf (transposeB_wf hwf))
    have hXb : (Game2048.moveLeftBoard win n
        (Game2048.reverseRows (Game2048.transposeB b))).1 =
        Game2048.reverseRows (Game2048.transposeB b) := by
      have h1 : Game2048.reverseRows
          (Game2048.moveLeftBoard win n
            (Game2048.reverseRows (Game2048.transposeB b))).1 =
          Game2048.transposeB b := by
        rw [← transposeB_transposeB (reverseRows_wf hX), h]
      rw [← reverseRows_reverseRows ((Game2048.moveLeftBoard win n
        (Game2048.reverseRows (Game2048.transposeB b))).1), h1]
    have hfix := moveLeftBoard_fixed win n
      (Game2048.reverseRows (Game2048.transposeB b)) hXb
    rw [hfix]
    simp [reverseRows_reverseRows, transposeB_transposeB hwf]
  · rw [transform_a] at h ⊢
    exact moveLeftBoard_fixed win n b h
  · rw [transform_d] at h ⊢
    simp only at h
    have hXb : (Game2048.moveLeftBoard win n (Game2048.reverseRows b)).1 =
        Game2048.reverseRows b := by
      rw [← reverseRows_reverseRows ((Game2048.moveLeftBoard win n
        (Game2048.reverseRows b)).1), h]
    have hfix := moveLeftBoard_fixed win n (Game2048.reverseRows b) hXb
    rw [hfix]
    simp [reverseRows_reverseRows]

/-- C1: for every game state and valid direction, if the directional
transform leaves the board equal to the pre-move snapshot, `move` returns
false and the state (board, score, win flag) is exactly the state before
the call; no tile is spawned. -/
theorem claim_C1 (g : Game2048) (d : Char) (p : Nat) (f : Bool)
    (hd : d = 'w' ∨ d = 's' ∨ d = 'a' ∨ d = 'd')
    (hwf : Game2048.BoardWF g.size g.board)
    (h : (Game2048.transformBoard g.win_value g.size d g.board).1 = g.board) :
    Game2048.move g d p f = (g, false) := by
  have hfix := transform_fixed g.win_value g.size d g.board hd hwf h
  obtain ⟨sz, bd, sc, wv, gw⟩ := g
  simp only at hfix ⊢
  unfold Game2048.move
  rw [if_pos hd, hfix]
  simp

/-- Witness for C1 at a concrete already-stuck left move. -/
theorem claim_C1_witness :
    Game2048.move ⟨2, [[2, 4], [4, 2]], 7, 2048, false⟩ 'a' 0 false =
      (⟨2, [[2, 4], [4, 2]], 7, 2048, false⟩, false) :=
  claim_C1 ⟨2, [[2, 4], [4, 2]], 7, 2048, false⟩ 'a' 0 false
    (Or.inr (Or.inr (Or.inl rfl))) (by constructor <;> decide) (by decide)

/-- C2: `is_game_over` returns true iff the scanned window has no zero
cell and no cell equals its right neighbour or the neighbour below it,
neighbours being checked only where they exist. -/
theorem claim_C2 (size : Nat) (b : List (List Nat)) :
    Game2048.is_game_over size b = true ↔
      (Game2048.noZeroCells size b ∧ Game2048.noAdjacentPairs size b) := by
  unfold Game2048.is_game_over
  split_ifs with h1 h2
  · simp only [Bool.false_eq_true, false_iff]
    rintro ⟨hnz, hadj⟩
    simp only [List.any_eq_true, List.mem_range, beq_iff_eq] at h1
    rcases h1 with ⟨r, hr, c, hc, hcell⟩
    exact hnz r hr c hc hcell
  · simp only [Bool.false_eq_true, false_iff]
    rintro ⟨hnz, hadj⟩
    simp only [List.any_eq_true, List.mem_range, Bool.or_eq_true, Bool.and_eq_true,
      decide_eq_true_eq, beq_iff_eq] at h2
    rcases h2 with ⟨r, hr, c, hc, ⟨hlt, he⟩ | ⟨hlt, he⟩⟩
    · exact hadj.1 r hr c hc hlt he
    · exact hadj.2 r hr hlt c hc he
  · simp only [true_iff]
    simp only [List.any_eq_true, List.mem_range, beq_iff_eq] at h1
    simp only [List.any_eq_true, List.mem_range, Bool.or_eq_true, Bool.and_eq_true,
      decide_eq_true_eq, beq_iff_eq] at h2
    push_neg at h1 h2
    refine ⟨fun r hr c hc => h1 r hr c hc, ?_, ?_⟩
    · intro r hr c hc hlt
      exact ((h2 r hr c hc).1 hlt)
    · intro r hr hlt c hc
      exact ((h2 r hr c hc).2 hlt)

/-- C3 counterexample: applying the left transform twice to the board
whose first row is [2,2,4,0] is not idempotent — the first pass yields
[4,4,0,0] and the second merges again to [8,0,0,0]. -/
theorem claim_C3_counterexample :
    (Game2048.transformBoard 2048 4 'a'
      ((Game2048.transformBoard 2048 4 'a'
        [[2, 2, 4, 0], [0, 0, 0, 0], [0, 0, 0, 0], [0, 0, 0, 0]]).1)).1 ≠
      (Game2048.transformBoard 2048 4 'a'
        [[2, 2, 4, 0], [0, 0, 0, 0], [0, 0, 0, 0], [0, 0, 0, 0]]).1 := by decide

/-- C3 amended: if the first application of the directional transform
performs no merge (adds no score), then the second application in the same
direction leaves the board unchanged. -/
theorem claim_C3_amended (win n : Nat) (d : Char) (b : List (List Nat))
    (hd : d = 'w' ∨ d = 's' ∨ d = 'a' ∨ d = 'd')
    (hwf : Game2048.BoardWF n b)
    (h : (Game2048.transformBoard win n d b).2.1 = 0) :
    (Game2048.transformBoard win n d ((Game2048.transformBoard win n d b).1)).1 =
      (Game2048.transformBoard win n d b).1 := by
  rcases hd with rfl | rfl | rfl | rfl
  · simp only [transform_w] at h ⊢
    have hX : Game2048.BoardWF n
        (Game2048.moveLeftBoard win n (Game2048.transposeB b)).1 :=
      moveLeftBoard_wf (transposeB_wf hwf)
    rw [transposeB_transposeB hX,
      moveLeftBoard_score_zero win n (Game2048.transposeB b) h]
  · simp only [transform_s] at h ⊢
    have hX : Game2048.BoardWF n
        (Game2048.moveLeftBoard win n
          (Game2048.reverseRows (Game2048.transposeB b))).1 :=
      moveLeftBoard_wf (reverseRows_wf (transposeB_wf hwf))
    rw [transposeB_transposeB (reverseRows_wf hX), reverseRows_reverseRows,
      moveLeftBoard_score_zero win n
        (Game2048.reverseRows (Game2048.transposeB b)) h]
  · simp only [transform_a] at h ⊢
    rw [moveLeftBoard_score_zero win n b h]
  · simp only [transform_d] at h ⊢
    rw [reverseRows_reverseRows,
      moveLeftBoard_score_zero win n (Game2048.reverseRows b) h]

/-- Witness for the amended C3 at a board that the left transform moves
(by compression) without any merge. -/
theorem claim_C3_amended_witness :
    (Game2048.transformBoard 2048 2 'a'
      ((Game2048.transformBoard 2048 2 'a' [[0, 2], [0, 4]]).1)).1 =
      (Game2048.transformBoard 2048 2 'a' [[0, 2], [0, 4]]).1 :=
  claim_C3_amended 2048 2 'a' [[0, 2], [0, 4]]
    (Or.inr (Or.inr (Or.inl rfl))) (by constructor <;> decide) (by decide)

/-- C4 counterexample: on the row [2,2,0,0] the output sum equals the
input sum (4 = 4) while the score added is 4, so the sum difference does
not equal the score delta as claimed. -/
theorem claim_C4_counterexample :
    ¬ ((Game2048.moveLeftRow 2048 4 [2, 2, 0, 0]).1.sum =
        ([2, 2, 0, 0] : List Nat).sum +
          (Game2048.moveLeftRow 2048 4 [2, 2, 0, 0]).2.1) := by decide

/-- C4 amended: the move-left primitive never increases the number of
non-zero entries of a row, and it preserves the sum of the tile values
exactly (so the sum is in particular never decreased); the score added is
the total of the merge-produced values, not the sum difference. -/
theorem claim_C4_amended (win size : Nat) (row : List Nat) :
    ((Game2048.moveLeftRow win size row).1.filter (fun i => i != 0)).length ≤
      (row.filter (fun i => i != 0)).length ∧
    (Game2048.moveLeftRow win size row).1.sum = row.sum := by
  constructor
  · rw [moveLeftRow_filter]
    exact mergeRow_length_le win _
  · simp only [Game2048.moveLeftRow, List.sum_append]
    rw [mergeRow_sum, filter_nz_sum]
    simp

/-- C5 counterexample: a 4 by 4 board with exactly one empty cell (15
non-zero cells) and no adjacent equal pair, on which `is_game_over`
returns false, not true as claimed. -/
theorem claim_C5_counterexample :
    Game2048.BoardWF 4 [[2, 4, 2, 4], [4, 2, 4, 2], [2, 4, 2, 4], [4, 2, 4, 0]] ∧
    Game2048.countNonzero
      [[2, 4, 2, 4], [4, 2, 4, 2], [2, 4, 2, 4], [4, 2, 4, 0]] = 15 ∧
    Game2048.noAdjacentPairs 4
      [[2, 4, 2, 4], [4, 2, 4, 2], [2, 4, 2, 4], [4, 2, 4, 0]] ∧
    Game2048.is_game_over 4
      [[2, 4, 2, 4], [4, 2, 4, 2], [2, 4, 2, 4], [4, 2, 4, 0]] = false := by
  refine ⟨⟨by decide, by decide⟩, by decide, ⟨by decide, by decide⟩, by decide⟩

/-- C5 amended: any board with an empty cell inside the scanned window —
in particular a 4 by 4 board with a single empty cell and no adjacent
equal pair — makes `is_game_over` return false, not true. -/
theorem claim_C5_amended (size : Nat) (b : List (List Nat)) (r c : Nat)
    (hr : r < size) (hc : c < size) (hz : Game2048.cell b r c = 0) :
    Game2048.is_game_over size b = false := by
  unfold Game2048.is_game_over
  have h1 : (List.range size).any (fun r => (List.range size).any (fun c =>
      Game2048.cell b r c == 0)) = true := by
    simp only [List.any_eq_true, List.mem_range, beq_iff_eq]
    exact ⟨r, hr, c, hc, hz⟩
  rw [if_pos h1]

/-- Witness for the amended C5 at a single-empty-cell board. -/
theorem claim_C5_amended_witness :
    Game2048.is_game_over 4
      [[2, 4, 2, 4], [4, 2, 4, 2], [2, 4, 2, 4], [4, 2, 8, 0]] = false :=
  claim_C5_amended 4
    [[2, 4, 2, 4], [4, 2, 4, 2], [2, 4, 2, 4], [4, 2, 8, 0]] 3 3
    (by decide) (by decide) (by decide)

/-- C6: the move-left primitive is exactly compress (drop zeros), then the
non-chaining merge scan, then right-padding with zeros to the board size;
in particular [2,2,2,2] maps to [4,4,0,0] scoring 8, and the merged result
of the pair in [2,2,4,0] is not merged again with the following 4. -/
theorem claim_C6 :
    (∀ win size : Nat, ∀ row : List Nat,
      Game2048.moveLeftRow win size row =
        ((Game2048.mergeRow win (row.filter (fun i => i != 0))).1 ++
           List.replicate
             (size -
               (Game2048.mergeRow win (row.filter (fun i => i != 0))).1.length) 0,
         (Game2048.mergeRow win (row.filter (fun i => i != 0))).2.1,
         (Game2048.mergeRow win (row.filter (fun i => i != 0))).2.2)) ∧
    Game2048.moveLeftRow 2048 4 [2, 2, 2, 2] = ([4, 4, 0, 0], 8, false) ∧
    Game2048.moveLeftRow 2048 4 [2, 2, 4, 0] = ([4, 4, 0, 0], 4, false) ∧
    Game2048.moveLeftRow 2048 4 [2, 0, 0, 2] = ([4, 0, 0, 0], 4, false) :=
  ⟨fun _ _ _ => rfl, by decide, by decide, by decide⟩

theorem transform_invalid (win n : Nat) (d : Char) (b : List (List Nat))
    (hd : ¬(d = 'w' ∨ d = 's' ∨ d = 'a' ∨ d = 'd')) :
    Game2048.transformBoard win n d b = (b, 0, false) := by
  push_neg at hd
  unfold Game2048.transformBoard
  rw [if_neg hd.1, if_neg hd.2.1, if_neg hd.2.2.1, if_neg hd.2.2.2]

theorem add_new_tile_won (g : Game2048) (p : Nat) (f : Bool) :
    (Game2048.add_new_tile g p f).game_won = g.game_won := by
  simp only [Game2048.add_new_tile]
  split_ifs <;> rfl

theorem add_new_tile_size (g : Game2048) (p : Nat) (f : Bool) :
    (Game2048.add_new_tile g p f).size = g.size := by
  simp only [Game2048.add_new_tile]
  split_ifs <;> rfl

theorem add_new_tile_congr (g g' : Game2048) (p : Nat) (f : Bool)
    (hs : g'.size = g.size) (hb : g'.board = g.board) :
    (Game2048.add_new_tile g' p f).board = (Game2048.add_new_tile g p f).board := by
  simp only [Game2048.add_new_tile, hs, hb]
  split_ifs <;> simp [hb]

/-- C9: an input that is none of the four direction characters makes
`move` return false and leave the whole state unchanged; no tile is
spawned and no other outcome is possible. -/
theorem claim_C9 (g : Game2048) (d : Char) (p : Nat) (f : Bool)
    (hd : ¬(d = 'w' ∨ d = 's' ∨ d = 'a' ∨ d = 'd')) :
    Game2048.move g d p f = (g, false) := by
  unfold Game2048.move
  rw [if_neg hd]

/-- Witness for C9 at the invalid direction character x. -/
theorem claim_C9_witness :
    Game2048.move ⟨4, [[2, 0, 0, 0], [0, 0, 0, 0], [0, 0, 0, 0], [0, 0, 0, 2]],
      0, 2048, false⟩ 'x' 3 true =
      (⟨4, [[2, 0, 0, 0], [0, 0, 0, 0], [0, 0, 0, 0], [0, 0, 0, 2]],
        0, 2048, false⟩, false) :=
  claim_C9 _ 'x' 3 true (by decide)

/-- C7: the win flag is false at construction, is unchanged by spawning,
changes across `move` exactly by or-ing in the transform's win hit (hence
once true it stays true), a win hit only arises when a merge doubles some
tile to the win value, and the flag's value never influences the board
produced by a move or whether the move is accepted. -/
theorem claim_C7 :
    (∀ size p1 p2 : Nat, ∀ f1 f2 : Bool,
       (Game2048.init size p1 f1 p2 f2).game_won = false) ∧
    (∀ g : Game2048, ∀ p : Nat, ∀ f : Bool,
       (Game2048.add_new_tile g p f).game_won = g.game_won) ∧
    (∀ g : Game2048, ∀ d : Char, ∀ p : Nat, ∀ f : Bool,
       ((Game2048.move g d p f).1).game_won =
         (g.game_won ||
           (Game2048.transformBoard g.win_value g.size d g.board).2.2)) ∧
    (∀ win size : Nat, ∀ b : List (List Nat),
       (Game2048.moveLeftBoard win size b).2.2 = true →
         ∃ row ∈ b, ∃ a ∈ row, a * 2 = win) ∧
    (∀ g : Game2048, ∀ w : Bool, ∀ d : Char, ∀ p : Nat, ∀ f : Bool,
       ((Game2048.move { g with game_won := w } d p f).1).board =
         ((Game2048.move g d p f).1).board ∧
       (Game2048.move { g with game_won := w } d p f).2 =
         (Game2048.move g d p f).2) := by
  refine ⟨?_, add_new_tile_won, ?_, moveLeftBoard_won, ?_⟩
  · intro size p1 p2 f1 f2
    unfold Game2048.init
    rw [add_new_tile_won, add_new_tile_won]
  · intro g d p f
    by_cases hd : d = 'w' ∨ d = 's' ∨ d = 'a' ∨ d = 'd'
    · simp only [Game2048.move, if_pos hd]
      split_ifs with hb
      · rfl
      · rw [add_new_tile_won]
    · simp only [Game2048.move, if_neg hd, transform_invalid g.win_value g.size d
        g.board hd]
      simp
  · intro g w d p f
    by_cases hd : d = 'w' ∨ d = 's' ∨ d = 'a' ∨ d = 'd'
    · simp only [Game2048.move, if_pos hd]
      split_ifs with hb
      · simp
      · refine ⟨?_, rfl⟩
        exact add_new_tile_congr _ _ p f rfl rfl
    · simp only [Game2048.move, if_neg hd]
      constructor <;> trivial

/-- Witness for C7: a merge that produces the win value is reported, and
the reported hit indeed comes from a doubled tile. -/
theorem claim_C7_witness :
    ∃ row ∈ [[1024, 1024]], ∃ a ∈ row, a * 2 = 2048 :=
  claim_C7.2.2.2.1 2048 2 [[1024, 1024]] (by decide)

theorem set_row_tileOK {row : List Nat} {v : Nat} (h : ∀ x ∈ row, Game2048.TileOK x)
    (hv : Game2048.TileOK v) (c : Nat) : ∀ x ∈ row.set c v, Game2048.TileOK x := by
  intro x hx
  rcases List.mem_or_eq_of_mem_set hx with hx | hx
  · exact h x hx
  · rw [hx]; exact hv

theorem setCell_boardOK {b : List (List Nat)} {v : Nat} (h : Game2048.BoardOK b)
    (hv : Game2048.TileOK v) (r c : Nat) :
    Game2048.BoardOK (Game2048.setCell b r c v) := by
  intro row hrow
  rcases List.mem_or_eq_of_mem_set hrow with hrow | hrow
  · exact h row hrow
  · subst hrow
    apply set_row_tileOK ?_ hv
    intro x hx
    rcases getD_mem_or b r [] with hd | hd
    · rw [hd] at hx
      simp at hx
    · exact h _ hd x hx

theorem add_new_tile_boardOK (g : Game2048) (p : Nat) (f : Bool)
    (h : Game2048.BoardOK g.board) :
    Game2048.BoardOK ((Game2048.add_new_tile g p f).board) := by
  simp only [Game2048.add_new_tile]
  split_ifs with he hf
  · exact h
  · exact setCell_boardOK h (Or.inr ⟨2, by omega, by norm_num⟩) _ _
  · exact setCell_boardOK h (Or.inr ⟨1, by omega, by norm_num⟩) _ _

theorem transform_boardOK (win n : Nat) (d : Char) (b : List (List Nat))
    (h : Game2048.BoardOK b) :
    Game2048.BoardOK ((Game2048.transformBoard win n d b).1) := by
  unfold Game2048.transformBoard
  split_ifs
  · exact transposeB_boardOK (moveLeftBoard_tileOK win n _ (transposeB_boardOK h))
  · exact transposeB_boardOK (reverseRows_boardOK
      (moveLeftBoard_tileOK win n _ (reverseRows_boardOK (transposeB_boardOK h))))
  · exact moveLeftBoard_tileOK win n b h
  · exact reverseRows_boardOK (moveLeftBoard_tileOK win n _ (reverseRows_boardOK h))
  · exact h

/-- C8: every cell is 0 or a power of two at least 2, at construction and
preserved by tile spawning (which writes only 2 or 4) and by every move
(whose merges only double existing tiles). -/
theorem claim_C8 :
    (∀ size p1 p2 : Nat, ∀ f1 f2 : Bool,
       Game2048.BoardOK ((Game2048.init size p1 f1 p2 f2).board)) ∧
    (∀ g : Game2048, ∀ p : Nat, ∀ f : Bool, Game2048.BoardOK g.board →
       Game2048.BoardOK ((Game2048.add_new_tile g p f).board)) ∧
    (∀ g : Game2048, ∀ d : Char, ∀ p : Nat, ∀ f : Bool, Game2048.BoardOK g.board →
       Game2048.BoardOK (((Game2048.move g d p f).1).board)) := by
  refine ⟨?_, fun g p f h => add_new_tile_boardOK g p f h, ?_⟩
  · intro size p1 p2 f1 f2
    unfold Game2048.init
    apply add_new_tile_boardOK
    apply add_new_tile_boardOK
    intro row hrow v hv
    rw [List.eq_of_mem_replicate hrow] at hv
    exact Or.inl (List.eq_of_mem_replicate hv)
  · intro g d p f h
    by_cases hd : d = 'w' ∨ d = 's' ∨ d = 'a' ∨ d = 'd'
    · simp only [Game2048.move, if_pos hd]
      split_ifs with hb
      · exact transform_boardOK g.win_value g.size d g.board h
      · exact add_new_tile_boardOK _ p f
          (transform_boardOK g.win_value g.size d g.board h)
    · simp only [Game2048.move, if_neg hd]
      exact h

/-- Witness for C8: the preservation clause applied to a concrete move. -/
theorem claim_C8_witness :
    Game2048.BoardOK (((Game2048.move ⟨2, [[0, 2], [0, 0]], 0, 2048, false⟩
      'a' 0 false).1).board) :=
  claim_C8.2.2 ⟨2, [[0, 2], [0, 0]], 0, 2048, false⟩ 'a' 0 false
    (by
      intro row hrow v hv
      simp only [List.mem_cons, List.not_mem_nil, or_false] at hrow
      rcases hrow with hrow | hrow <;> subst hrow <;>
        simp only [List.mem_cons, List.not_mem_nil, or_false] at hv
      · rcases hv with hv | hv
        · exact Or.inl hv
        · exact Or.inr ⟨1, by omega, hv⟩
      · rcases hv with hv | hv <;> exact Or.inl hv)

theorem transform_wf (win n : Nat) (d : Char) (b : List (List Nat))
    (hd : d = 'w' ∨ d = 's' ∨ d = 'a' ∨ d = 'd') (hwf : Game2048.BoardWF n b) :
    Game2048.BoardWF n ((Game2048.transformBoard win n d b).1) := by
  rcases hd with rfl | rfl | rfl | rfl
  · rw [transform_w]
    exact transposeB_wf (moveLeftBoard_wf (transposeB_wf hwf))
  · rw [transform_s]
    exact transposeB_wf (reverseRows_wf
      (moveLeftBoard_wf (reverseRows_wf (transposeB_wf hwf))))
  · rw [transform_a]
    exact moveLeftBoard_wf hwf
  · rw [transform_d]
    exact reverseRows_wf (moveLeftBoard_wf (reverseRows_wf hwf))

theorem transform_changed_zero (win n : Nat) (d : Char) (b : List (List Nat))
    (hd : d = 'w' ∨ d = 's' ∨ d = 'a' ∨ d = 'd') (hwf : Game2048.BoardWF n b)
    (hch : (Game2048.transformBoard win n d b).1 ≠ b) :
    ∃ row ∈ (Game2048.transformBoard win n d b).1, 0 ∈ row := by
  rcases hd with rfl | rfl | rfl | rfl
  · rw [transform_w] at hch ⊢
    simp only at hch ⊢
    have hX : Game2048.BoardWF n
        (Game2048.moveLeftBoard win n (Game2048.transposeB b)).1 :=
      moveLeftBoard_wf (transposeB_wf hwf)
    have hne : (Game2048.moveLeftBoard win n (Game2048.transposeB b)).1 ≠
        Game2048.transposeB b := by
      intro he
      exact hch (by rw [he, transposeB_transposeB hwf])
    have hz := moveLeftBoard_changed_zero win n (Game2048.transposeB b)
      (fun r hr => Nat.le_of_eq ((transposeB_wf hwf).2 r hr)) hne
    exact transposeB_zero hX hz
  · rw [transform_s] at hch ⊢
    simp only at hch ⊢
    have hZ : Game2048.BoardWF n
        (Game2048.moveLeftBoard win n
          (Game2048.reverseRows (Game2048.transposeB b))).1 :=
      moveLeftBoard_wf (reverseRows_wf (transposeB_wf hwf))
    have hne : (Game2048.moveLeftBoard win n
        (Game2048.reverseRows (Game2048.transposeB b))).1 ≠
        Game2048.reverseRows (Game2048.transposeB b) := by
      intro he
      exact hch (by
        rw [he, reverseRows_reverseRows, transposeB_transposeB hwf])
    have hz := moveLeftBoard_changed_zero win n
      (Game2048.reverseRows (Game2048.transposeB b))
      (fun r hr => Nat.le_of_eq ((reverseRows_wf (transposeB_wf hwf)).2 r hr)) hne
    exact transposeB_zero (reverseRows_wf hZ) (reverseRows_zero hz)
  · rw [transform_a] at hch ⊢
    exact moveLeftBoard_changed_zero win n b
      (fun r hr => Nat.le_of_eq (hwf.2 r hr)) hch
  · rw [transform_d] at hch ⊢
    simp only at hch ⊢
    have hne : (Game2048.moveLeftBoard win n (Game2048.reverseRows b)).1 ≠
        Game2048.reverseRows b := by
      intro he
      exact hch (by rw [he, reverseRows_reverseRows])
    have hz := moveLeftBoard_changed_zero win n (Game2048.reverseRows b)
      (fun r hr => Nat.le_of_eq ((reverseRows_wf hwf).2 r hr)) hne
    exact reverseRows_zero hz

theorem emptyCells_ne_nil {n : Nat} {b : List (List Nat)}
    (hwf : Game2048.BoardWF n b) (hz : ∃ row ∈ b, 0 ∈ row) :
    Game2048.emptyCells n b ≠ [] := by
  rcases hz with ⟨row, hrow, hzr⟩
  rcases List.getElem_of_mem hrow with ⟨i, hi, hie⟩
  rcases List.getElem_of_mem hzr with ⟨j, hj, hje⟩
  have hin : i < n := by rw [← hwf.1]; exact hi
  have hjn : j < n := by rw [← hwf.2 row hrow]; exact hj
  have hcell : Game2048.cell b i j = 0 := by
    unfold Game2048.cell
    rw [getD_lt hi, hie, getD_lt hj, hje]
  intro hnil
  have hmem : (i, j) ∈ Game2048.emptyCells n b := by
    unfold Game2048.emptyCells
    refine List.mem_flatMap.mpr ⟨i, by simp [hin], ?_⟩
    refine List.mem_map.mpr ⟨j, ?_, rfl⟩
    exact List.mem_filter.mpr ⟨by simp [hjn], by simp [hcell]⟩
  rw [hnil] at hmem
  simp at hmem

theorem emptyCells_mem {n : Nat} {b : List (List Nat)} {r c : Nat}
    (h : (r, c) ∈ Game2048.emptyCells n b) :
    r < n ∧ c < n ∧ Game2048.cell b r c = 0 := by
  unfold Game2048.emptyCells at h
  rcases List.mem_flatMap.mp h with ⟨r', hr', hmem⟩
  rcases List.mem_map.mp hmem with ⟨c', hc', he⟩
  obtain ⟨rfl, rfl⟩ : r' = r ∧ c' = c :=
    ⟨congrArg Prod.fst he, congrArg Prod.snd he⟩
  rcases List.mem_filter.mp hc' with ⟨hcr, hcz⟩
  exact ⟨by simpa using hr', by simpa using hcr, by simpa using hcz⟩

theorem count_set_row :
    ∀ (row : List Nat) (c : Nat), c < row.length → row.getD c 0 = 0 →
      ∀ v : Nat, v ≠ 0 →
      ((row.set c v).filter (fun i => i != 0)).length =
        (row.filter (fun i => i != 0)).length + 1
  | [], c => by simp
  | x :: xs, 0 => by
    intro _ hz v hv
    simp only [List.getD_cons_zero] at hz
    subst hz
    simp [List.filter_cons, hv]
  | x :: xs, c + 1 => by
    intro h hz v hv
    have ih := count_set_row xs c (by simpa using h) (by simpa using hz) v hv
    by_cases hx : x = 0 <;>
      simp [List.set_cons_succ, List.filter_cons, hx, ih]

theorem count_set_board :
    ∀ (b : List (List Nat)) (r : Nat) (nr : List Nat), r < b.length →
      (nr.filter (fun i => i != 0)).length =
        ((b.getD r []).filter (fun i => i != 0)).length + 1 →
      Game2048.countNonzero (b.set r nr) = Game2048.countNonzero b + 1
  | [], r, nr => by simp
  | row :: rs, 0, nr => by
    intro _ hc
    simp only [List.getD_cons_zero] at hc
    simp [Game2048.countNonzero, List.set, hc]
    omega
  | row :: rs, r + 1, nr => by
    intro h hc
    have ih := count_set_board rs r nr (by simpa using h) (by simpa using hc)
    simp only [Game2048.countNonzero, List.set_cons_succ, List.map_cons,
      List.sum_cons] at ih ⊢
    omega

theorem add_new_tile_count (g : Game2048)
    (hwf : Game2048.BoardWF g.size g.board)
    (hz : ∃ row ∈ g.board, 0 ∈ row) (p : Nat) (f : Bool) :
    Game2048.countNonzero ((Game2048.add_new_tile g p f).board) =
      Game2048.countNonzero g.board + 1 := by
  have hne := emptyCells_ne_nil hwf hz
  have hlen : 0 < (Game2048.emptyCells g.size g.board).length :=
    List.length_pos.mpr hne
  have hmod : p % (Game2048.emptyCells g.size g.board).length <
      (Game2048.emptyCells g.size g.board).length := Nat.mod_lt _ hlen
  have hget : (Game2048.emptyCells g.size g.board).getD
      (p % (Game2048.emptyCells g.size g.board).length) (0, 0) =
      (Game2048.emptyCells g.size g.board)[p %
        (Game2048.emptyCells g.size g.board).length] := getD_lt hmod _
  have hmem : (Game2048.emptyCells g.size g.board).getD
      (p % (Game2048.emptyCells g.size g.board).length) (0, 0) ∈
      Game2048.emptyCells g.size g.board := by
    rw [hget]
    exact List.getElem_mem hmod
  obtain ⟨hr, hc, hcell⟩ := emptyCells_mem hmem
  simp only [Game2048.add_new_tile, if_neg hne]
  unfold Game2048.setCell
  apply count_set_board
  · rw [hwf.1]
    exact hr
  · have hrowlen : (g.board.getD ((Game2048.emptyCells g.size g.board).getD
        (p % (Game2048.emptyCells g.size g.board).length) (0, 0)).1 []).length =
        g.size := by
      have hrb : ((Game2048.emptyCells g.size g.board).getD
          (p % (Game2048.emptyCells g.size g.board).length) (0, 0)).1 <
          g.board.length := by rw [hwf.1]; exact hr
      rw [getD_lt hrb]
      exact hwf.2 _ (List.getElem_mem hrb)
    apply count_set_row
    · rw [hrowlen]
      exact hc
    · exact hcell
    · cases f <;> simp

/-- C10: whenever a valid direction changes the board, the transformed
board still has an empty cell, so the spawn that `move` then performs
cannot hit the full-board no-op branch and adds exactly one non-zero
tile. -/
theorem claim_C10 (g : Game2048) (d : Char) (p : Nat) (f : Bool)
    (hd : d = 'w' ∨ d = 's' ∨ d = 'a' ∨ d = 'd')
    (hwf : Game2048.BoardWF g.size g.board)
    (hch : (Game2048.transformBoard g.win_value g.size d g.board).1 ≠ g.board) :
    Game2048.emptyCells g.size
      ((Game2048.transformBoard g.win_value g.size d g.board).1) ≠ [] ∧
    Game2048.countNonzero (((Game2048.move g d p f).1).board) =
      Game2048.countNonzero
        ((Game2048.transformBoard g.win_value g.size d g.board).1) + 1 := by
  have hz := transform_changed_zero g.win_value g.size d g.board hd hwf hch
  have hwf' := transform_wf g.win_value g.size d g.board hd hwf
  refine ⟨emptyCells_ne_nil hwf' hz, ?_⟩
  simp only [Game2048.move, if_pos hd, if_neg hch]
  exact add_new_tile_count
    { g with
      board := (Game2048.transformBoard g.win_value g.size d g.board).1,
      score := g.score +
        (Game2048.transformBoard g.win_value g.size d g.board).2.1,
      game_won := g.game_won ||
        (Game2048.transformBoard g.win_value g.size d g.board).2.2 }
    hwf' hz p f

/-- Witness for C10 at a concrete changing left move on a 2 by 2 board. -/
theorem claim_C10_witness :
    Game2048.emptyCells 2
      ((Game2048.transformBoard 2048 2 'a' [[0, 2], [0, 0]]).1) ≠ [] ∧
    Game2048.countNonzero (((Game2048.move ⟨2, [[0, 2], [0, 0]], 0, 2048,
      false⟩ 'a' 0 false).1).board) =
      Game2048.countNonzero
        ((Game2048.transformBoard 2048 2 'a' [[0, 2], [0, 0]]).1) + 1 :=
  claim_C10 ⟨2, [[0, 2], [0, 0]], 0, 2048, false⟩ 'a' 0 false
    (Or.inr (Or.inr (Or.inl rfl))) (by constructor <;> decide) (by decide)





